import Mathlib

/-!
# Connection admission and shutdown of the `tim` server (`server.go`)

A shallow embedding of `checkConn`, `closeConn` and `Shutdown` together with the
package-level variables they use, followed by the properties proved about them.

Modelling conventions.

* A Go `map[string]V` is a `Finmap` keyed by `String`: finite, extensional, with
  `insert`, `erase`, `lookup` and `keys`.  `len m` is the number of keys.  The three
  maps are taken as already made by `ListenTcp`/`ListenWs`/`startXxx`.
* A Go panic (slice bound out of range, failed type assertion) is the result `none`.
* `ipNumMap` has element type `float64` but only ever holds values obtained from `0`
  by `++` and `--`; these are whole numbers and float arithmetic on them is exact
  below `2^53`, so a counter is an `Int` and `int(num)` is `num` itself.
* `timCfg.IpWhiteList` is compared with a counter by `num >= whiteNum`, so its
  element type is `float64` as well; a finite cap is a rational number.
* The mutex `consLock` and the wait group `wgCons` appear only as events of the
  trace of `Shutdown`; everything here is the sequential behaviour of one call.
-/

namespace Tim

/-- A Go `map[string]V`. -/
abbrev GoMap (V : Type) := Finmap (fun _ : String => V)

/-- The builtin `len` of a map. -/
def len {V : Type} (m : GoMap V) : Nat := m.keys.card

/-- Reading `m[k]` from a map: the zero value when the key is absent. -/
def valueAt {V : Type} [Zero V] (m : GoMap V) (k : String) : V := (m.lookup k).getD 0

/-- A `*net.TCPConn`: its remote address and the identity of its socket. -/
structure TCPConn where
  remoteAddr : String
  fd : Nat
deriving DecidableEq, Repr

/-- A `*tls.Conn`: its remote address and the identity of its socket. -/
structure TLSConn where
  remoteAddr : String
  fd : Nat
deriving DecidableEq, Repr

/-- A value of interface type `net.Conn` as the listeners of this package produce
them: `net.Listen` yields `*net.TCPConn`, `tls.Listen` yields `*tls.Conn`. -/
inductive Conn where
  | tcp (c : TCPConn)
  | tls (c : TLSConn)
deriving DecidableEq, Repr

/-- The string of `conn.RemoteAddr()`. -/
def Conn.RemoteAddr : Conn → String
  | .tcp c => c.remoteAddr
  | .tls c => c.remoteAddr

/-- The type assertion `conn.(*net.TCPConn)`; `none` is the panic. -/
def Conn.assertTCP : Conn → Option TCPConn
  | .tcp c => some c
  | .tls _ => none

/-- The type assertion `conn.(*tls.Conn)`; `none` is the panic. -/
def Conn.assertTLS : Conn → Option TLSConn
  | .tcp _ => none
  | .tls c => some c

/-- Position of the last occurrence of `sep` in a list of characters. -/
def lastIdx (sep : Char) : List Char → Option Nat
  | [] => none
  | c :: cs =>
    match lastIdx sep cs with
    | some i => some (i + 1)
    | none => if c = sep then some 0 else none

/-- The call `strings.LastIndex(s, ":")` for a one-character separator: the index of
the last occurrence, or `-1`. -/
def LastIndex (s : String) (sep : Char) : Int :=
  match lastIdx sep s.data with
  | some i => (i : Int)
  | none => -1

/-- The slice expression `s[:e]`; `none` is the panic for an index out of range. -/
def slicePrefix (s : String) (e : Int) : Option String :=
  if 0 ≤ e ∧ e ≤ (s.data.length : Int) then some (String.mk (s.data.take e.toNat)) else none

/-- The expression `addrStr[:strings.LastIndex(addrStr, ":")]` of both functions. -/
def ipOf (addrStr : String) : Option String := slicePrefix addrStr (LastIndex addrStr ':')

/-- Modelled from the spec: the type of `timCfg`, which is declared outside `server.go`.
Of its settings `checkConn` reads the global cap and the default per-IP cap, both
integers, and the allow-list, a map from IP string to a numeric override cap (a
`float64`, as it is compared with the `float64` counter). -/
structure Config where
  MaxConnNum : Int
  MaxIpConnNum : Int
  IpWhiteList : GoMap ℚ

/-- The package-level maps guarded by `consLock`. -/
structure State where
  tcpCons : GoMap TCPConn
  tlsCons : GoMap TLSConn
  ipNumMap : GoMap Int
deriving DecidableEq

/-- All three maps empty. -/
def State.empty : State := ⟨∅, ∅, ∅⟩

/-- The quantity `len(tcpCons) + len(tlsCons)`. -/
def State.total (s : State) : Nat := len s.tcpCons + len s.tlsCons

/-- What a call of `checkConn` leaves behind: the returned boolean, the maps, and the
connections on which it called `Close`, in order. -/
structure CheckResult where
  ok : Bool
  state : State
  closed : List Conn
deriving DecidableEq

/-- The statement `ipNumMap[ip]++`. -/
def incr (m : GoMap Int) (ip : String) : GoMap Int := m.insert ip (valueAt m ip + 1)

/-- The statements `ipNumMap[ip]--; if num := ipNumMap[ip]; num == 0 { delete(ipNumMap, ip) }`. -/
def decr (m : GoMap Int) (ip : String) : GoMap Int :=
  let m1 := m.insert ip (valueAt m ip - 1)
  if valueAt m1 ip = 0 then m1.erase ip else m1

/-- Whether `network == "tcp" || network == "ws"`. -/
def isPlain (network : String) : Bool := network == "tcp" || network == "ws"

/-- The function `checkConn`. -/
def checkConn (cfg : Config) (s : State) (conn : Conn) (network : String) :
    Option CheckResult :=
  if cfg.MaxConnNum ≤ ((len s.tcpCons + len s.tlsCons : Nat) : Int) then
    some ⟨false, s, [conn]⟩
  else
    let addrStr := conn.RemoteAddr
    let ipEnd := LastIndex addrStr ':'
    match slicePrefix addrStr ipEnd with
    | none => none
    | some ip =>
      let whiteNum : ℚ := valueAt cfg.IpWhiteList ip
      let num : Int := valueAt s.ipNumMap ip
      if cfg.MaxIpConnNum ≤ num ∧ whiteNum ≤ (num : ℚ) then
        some ⟨false, s, [conn]⟩
      else if isPlain network then
        match conn.assertTCP with
        | none => none
        | some c =>
          some ⟨true, ⟨s.tcpCons.insert addrStr c, s.tlsCons, incr s.ipNumMap ip⟩, []⟩
      else
        match conn.assertTLS with
        | none => none
        | some c =>
          some ⟨true, ⟨s.tcpCons, s.tlsCons.insert addrStr c, incr s.ipNumMap ip⟩, []⟩

/-- The function `closeConn`. -/
def closeConn (s : State) (conn : Conn) (network : String) : Option State :=
  let addrStr := conn.RemoteAddr
  let s1 : State :=
    if isPlain network then ⟨s.tcpCons.erase addrStr, s.tlsCons, s.ipNumMap⟩
    else ⟨s.tcpCons, s.tlsCons.erase addrStr, s.ipNumMap⟩
  match slicePrefix addrStr (LastIndex addrStr ':') with
  | none => none
  | some ip => some ⟨s1.tcpCons, s1.tlsCons, decr s1.ipNumMap ip⟩

/-- One call made by an accept loop or by a close callback. -/
inductive Op where
  | check (conn : Conn) (network : String)
  | close (conn : Conn) (network : String)
deriving DecidableEq, Repr

/-- The maps after one operation. -/
def step (cfg : Config) (s : State) : Op → Option State
  | .check conn network => (checkConn cfg s conn network).map (fun r => r.state)
  | .close conn network => closeConn s conn network

/-- The maps after a sequence of operations, each run to completion under `consLock`. -/
def run (cfg : Config) (s : State) : List Op → Option State
  | [] => some s
  | op :: ops => (step cfg s op).bind (fun s1 => run cfg s1 ops)

/-- The condition on one operation in state `s`: an admitted connection has an address
no live connection has, and a released connection is registered under its address in
the registry of the transport kind given. -/
def opOk (s : State) : Op → Bool
  | .check conn _ => decide (conn.RemoteAddr ∉ s.tcpCons) && decide (conn.RemoteAddr ∉ s.tlsCons)
  | .close conn network =>
    if isPlain network then decide (conn.RemoteAddr ∈ s.tcpCons)
    else decide (conn.RemoteAddr ∈ s.tlsCons)

/-- The condition `opOk` along a sequence of operations started in `s`. -/
def traceOk (cfg : Config) (s : State) : List Op → Bool
  | [] => true
  | op :: ops =>
    opOk s op &&
      (match step cfg s op with
       | some s1 => traceOk cfg s1 ops
       | none => true)

/-- Number of keys of one registry whose address has IP `ip`. -/
def ipCountIn {V : Type} (m : GoMap V) (ip : String) : Nat :=
  (m.keys.filter (fun a => ipOf a = some ip)).card

/-- Number of registered connections, over both registries, whose address has IP `ip`. -/
def ipCount (s : State) (ip : String) : Nat := ipCountIn s.tcpCons ip + ipCountIn s.tlsCons ip

/-- The sum of all values of a counter map. -/
def sumVals (m : GoMap Int) : Int := ∑ k in m.keys, valueAt m k

/-- The Per-IP Counter invariant: every counter equals the number of registered
connections with that IP. -/
def CounterInv (s : State) : Prop := ∀ ip, valueAt s.ipNumMap ip = (ipCount s ip : Int)

/-- No entry of the counter map has value `0`. -/
def NoZero (m : GoMap Int) : Prop := ∀ ip, m.lookup ip ≠ some 0

/-- The four listener variables. -/
inductive Listener where
  | tcpLn | tlsLn | wsLn | wssLn
deriving DecidableEq, Repr

/-- Which of the listener variables are non-nil. -/
structure Listeners where
  tcpLn : Bool
  tlsLn : Bool
  wsLn : Bool
  wssLn : Bool
deriving DecidableEq, Repr

/-- The observable actions of `Shutdown`, in program order. -/
inductive Event where
  | closeListener (l : Listener)
  | lock
  | deleteTcp (k : String)
  | closeTcp (c : TCPConn)
  | deleteTls (k : String)
  | closeTls (c : TLSConn)
  | unlock
  | wgWait
deriving DecidableEq, Repr

/-- The loop `for k, v := range m { delete(m, k); _ = v.Close() }`, visiting the keys in
the order `order`, which Go leaves unspecified. -/
def rangeDelete {V : Type} (del : String → Event) (cls : V → Event) :
    List String → GoMap V → GoMap V × List Event
  | [], m => (m, [])
  | k :: ks, m =>
    match m.lookup k with
    | some v =>
      let r := rangeDelete del cls ks (m.erase k)
      (r.1, del k :: cls v :: r.2)
    | none => rangeDelete del cls ks m

/-- The four guarded `Close` calls on the listeners. -/
def closeListeners (ls : Listeners) : List Event :=
  (if ls.tcpLn then [Event.closeListener .tcpLn] else []) ++
  (if ls.tlsLn then [Event.closeListener .tlsLn] else []) ++
  (if ls.wsLn then [Event.closeListener .wsLn] else []) ++
  (if ls.wssLn then [Event.closeListener .wssLn] else [])

/-- The function `Shutdown`: the maps it leaves and the trace of its actions.
`ordTcp` and `ordTls` are the orders in which the two `range` loops visit the keys. -/
def Shutdown (ls : Listeners) (s : State) (ordTcp ordTls : List String) :
    State × List Event :=
  let r1 := rangeDelete Event.deleteTcp Event.closeTcp ordTcp s.tcpCons
  let r2 := rangeDelete Event.deleteTls Event.closeTls ordTls s.tlsCons
  (⟨r1.1, r2.1, s.ipNumMap⟩,
    closeListeners ls ++ [Event.lock] ++ r1.2 ++ r2.2 ++ [Event.unlock] ++ [Event.wgWait])

/-- An iteration order of a `range` loop over `m`: every key of `m`, once. -/
abbrev IsOrderOf {V : Type} (order : List String) (m : GoMap V) : Prop :=
  order.Nodup ∧ order.toFinset = m.keys

/-- The two actions of one loop iteration for the entry of `m` under key `k`. -/
def entryEvents {V : Type} (del : String → Event) (cls : V → Event) (m : GoMap V)
    (k : String) : List Event :=
  match m.lookup k with
  | some v => [del k, cls v]
  | none => []

/-- Whether a listener variable is non-nil. -/
def Listeners.started (ls : Listeners) : Listener → Bool
  | .tcpLn => ls.tcpLn
  | .tlsLn => ls.tlsLn
  | .wsLn => ls.wsLn
  | .wssLn => ls.wssLn

/-- Whether an event is a `Close` call on a connection. -/
def Event.isConnClose : Event → Bool
  | .closeTcp _ => true
  | .closeTls _ => true
  | _ => false

/-- Every registered address has an IP part, that is, contains a colon. -/
def KeysOk (s : State) : Prop :=
  (∀ a, a ∈ s.tcpCons → ∃ ip, ipOf a = some ip) ∧ (∀ a, a ∈ s.tlsCons → ∃ ip, ipOf a = some ip)

/-- The registry/counter invariant of the data model, together with the fact that makes
it inductive: every registered address has an IP part. -/
def Inv (s : State) : Prop := KeysOk s ∧ CounterInv s ∧ NoZero s.ipNumMap

/-- Whether `conn` is a connection the listener of kind `network` accepts, as at the four
call sites of `checkConn`: a `*net.TCPConn` from `net.Listen` for "tcp" and "ws", a
`*tls.Conn` from `tls.Listen` otherwise. -/
def Conn.fits (conn : Conn) (network : String) : Bool :=
  if isPlain network then conn.assertTCP.isSome else conn.assertTLS.isSome

/-- A configuration with `MaxConnNum = 2`, `MaxIpConnNum = 1` and no allow-list. -/
def cfgTwo : Config := ⟨2, 1, ∅⟩

/-- A plain connection from `10.0.0.1`. -/
def connA : Conn := Conn.tcp ⟨"10.0.0.1:5001", 1⟩

/-- A TLS connection from `10.0.0.2`. -/
def connB : Conn := Conn.tls ⟨"10.0.0.2:5002", 2⟩

/-- A plain connection from `10.0.0.3`. -/
def connC : Conn := Conn.tcp ⟨"10.0.0.3:5003", 3⟩

/-- The maps after `connA` and `connB` have been admitted. -/
def stateAB : State :=
  ⟨Finmap.singleton "10.0.0.1:5001" ⟨"10.0.0.1:5001", 1⟩,
   Finmap.singleton "10.0.0.2:5002" ⟨"10.0.0.2:5002", 2⟩,
   Finmap.insert "10.0.0.2" 1 (Finmap.singleton "10.0.0.1" 1)⟩

/-- The maps when only `connB` is registered. -/
def stateB : State :=
  ⟨∅, Finmap.singleton "10.0.0.2:5002" ⟨"10.0.0.2:5002", 2⟩, Finmap.singleton "10.0.0.2" 1⟩

/-- A second plain connection from `10.0.0.1`. -/
def connA2 : Conn := Conn.tcp ⟨"10.0.0.1:5009", 4⟩

/-- The maps when only `connA` is registered. -/
def stateA : State :=
  ⟨Finmap.singleton "10.0.0.1:5001" ⟨"10.0.0.1:5001", 1⟩, ∅, Finmap.singleton "10.0.0.1" 1⟩

/-- The configuration of the per-IP scenario: `MaxIpConnNum = 1` and the allow-list
`10.0.0.1 -> 3`, with a global cap of 10. -/
def cfgWhite : Config := ⟨10, 1, Finmap.singleton "10.0.0.1" 3⟩

/-- The maps when `connA` and `connA2` are registered. -/
def stateAA2 : State :=
  ⟨Finmap.insert "10.0.0.1:5009" ⟨"10.0.0.1:5009", 4⟩
      (Finmap.singleton "10.0.0.1:5001" ⟨"10.0.0.1:5001", 1⟩),
    ∅, Finmap.singleton "10.0.0.1" 2⟩

/-- As `cfgWhite`, with the allow-list cap `5/2` for `10.0.0.1`. -/
def cfgFrac : Config := ⟨10, 1, Finmap.singleton "10.0.0.1" (mkRat 5 2)⟩

/-- A third plain connection from `10.0.0.1`. -/
def connA3 : Conn := Conn.tcp ⟨"10.0.0.1:5010", 6⟩

/-- A fourth plain connection from `10.0.0.1`. -/
def connA4 : Conn := Conn.tcp ⟨"10.0.0.1:5011", 7⟩

/-- The maps when `connA`, `connA2` and `connA3` are registered. -/
def stateAAA : State :=
  ⟨Finmap.insert "10.0.0.1:5010" ⟨"10.0.0.1:5010", 6⟩
      (Finmap.insert "10.0.0.1:5009" ⟨"10.0.0.1:5009", 4⟩
        (Finmap.singleton "10.0.0.1:5001" ⟨"10.0.0.1:5001", 1⟩)),
    ∅, Finmap.singleton "10.0.0.1" 3⟩

/-! ## Maps -/

theorem keys_insert {V : Type} (m : GoMap V) (k : String) (v : V) :
    (m.insert k v).keys = insert k m.keys := by
  ext a
  simp [Finmap.mem_keys, Finmap.mem_insert]

theorem len_insert_le {V : Type} (m : GoMap V) (k : String) (v : V) :
    len (m.insert k v) ≤ len m + 1 := by
  unfold len
  rw [keys_insert]
  exact Finset.card_insert_le _ _

theorem len_insert_of_not_mem {V : Type} (m : GoMap V) (k : String) (v : V) (h : k ∉ m) :
    len (m.insert k v) = len m + 1 := by
  unfold len
  rw [keys_insert]
  exact Finset.card_insert_of_not_mem (by simpa [Finmap.mem_keys] using h)

theorem len_erase_le {V : Type} (m : GoMap V) (k : String) : len (m.erase k) ≤ len m := by
  unfold len
  rw [Finmap.keys_erase]
  exact Finset.card_erase_le

theorem len_erase_of_mem {V : Type} (m : GoMap V) (k : String) (h : k ∈ m) :
    len (m.erase k) + 1 = len m := by
  unfold len
  rw [Finmap.keys_erase]
  exact Finset.card_erase_add_one (by simpa [Finmap.mem_keys] using h)

theorem valueAt_insert_self {V : Type} [Zero V] (m : GoMap V) (k : String) (v : V) :
    valueAt (m.insert k v) k = v := by
  simp [valueAt, Finmap.lookup_insert]

theorem valueAt_insert_of_ne {V : Type} [Zero V] (m : GoMap V) (k a : String) (v : V)
    (h : a ≠ k) : valueAt (m.insert k v) a = valueAt m a := by
  simp [valueAt, Finmap.lookup_insert_of_ne _ h]

theorem valueAt_erase_self {V : Type} [Zero V] (m : GoMap V) (k : String) :
    valueAt (m.erase k) k = 0 := by
  simp [valueAt, Finmap.lookup_erase]

theorem valueAt_erase_of_ne {V : Type} [Zero V] (m : GoMap V) (k a : String)
    (h : a ≠ k) : valueAt (m.erase k) a = valueAt m a := by
  simp [valueAt, Finmap.lookup_erase_ne h]

/-! ## The result of `checkConn` by cases -/

theorem checkConn_cases (cfg : Config) (s : State) (conn : Conn) (network : String)
    (r : CheckResult) (h : checkConn cfg s conn network = some r) :
    (r = ⟨false, s, [conn]⟩) ∨
    (∃ ip c, ipOf conn.RemoteAddr = some ip ∧ (s.total : Int) < cfg.MaxConnNum ∧
      ¬ (cfg.MaxIpConnNum ≤ valueAt s.ipNumMap ip ∧
          valueAt cfg.IpWhiteList ip ≤ ((valueAt s.ipNumMap ip : Int) : ℚ)) ∧
      isPlain network = true ∧ conn = Conn.tcp c ∧
      r = ⟨true, ⟨s.tcpCons.insert conn.RemoteAddr c, s.tlsCons, incr s.ipNumMap ip⟩, []⟩) ∨
    (∃ ip c, ipOf conn.RemoteAddr = some ip ∧ (s.total : Int) < cfg.MaxConnNum ∧
      ¬ (cfg.MaxIpConnNum ≤ valueAt s.ipNumMap ip ∧
          valueAt cfg.IpWhiteList ip ≤ ((valueAt s.ipNumMap ip : Int) : ℚ)) ∧
      isPlain network = false ∧ conn = Conn.tls c ∧
      r = ⟨true, ⟨s.tcpCons, s.tlsCons.insert conn.RemoteAddr c, incr s.ipNumMap ip⟩, []⟩) := by
  unfold checkConn at h
  by_cases hg : cfg.MaxConnNum ≤ ((len s.tcpCons + len s.tlsCons : Nat) : Int)
  · rw [if_pos hg] at h
    left
    exact (Option.some.inj h).symm
  · rw [if_neg hg] at h
    have hlt : (s.total : Int) < cfg.MaxConnNum := by
      unfold State.total
      exact not_le.mp hg
    cases hip : slicePrefix conn.RemoteAddr (LastIndex conn.RemoteAddr ':') with
    | none => simp [hip] at h
    | some ip =>
      simp only [hip] at h
      by_cases hc : cfg.MaxIpConnNum ≤ valueAt s.ipNumMap ip ∧
          valueAt cfg.IpWhiteList ip ≤ ((valueAt s.ipNumMap ip : Int) : ℚ)
      · rw [if_pos hc] at h
        left
        exact (Option.some.inj h).symm
      · rw [if_neg hc] at h
        right
        cases hn : isPlain network with
        | true =>
          left
          simp only [hn, if_true] at h
          cases conn with
          | tcp c =>
            simp only [Conn.assertTCP] at h
            exact ⟨ip, c, hip, hlt, hc, rfl, rfl, (Option.some.inj h).symm⟩
          | tls c => simp [Conn.assertTCP] at h
        | false =>
          right
          simp only [hn] at h
          cases conn with
          | tcp c => simp [Conn.assertTLS] at h
          | tls c =>
            simp only [Conn.assertTLS] at h
            exact ⟨ip, c, hip, hlt, hc, rfl, rfl, (Option.some.inj h).symm⟩

theorem closeConn_cases (s : State) (conn : Conn) (network : String) (t : State)
    (h : closeConn s conn network = some t) :
    ∃ ip, ipOf conn.RemoteAddr = some ip ∧
      ((isPlain network = true ∧
          t = ⟨s.tcpCons.erase conn.RemoteAddr, s.tlsCons, decr s.ipNumMap ip⟩) ∨
       (isPlain network = false ∧
          t = ⟨s.tcpCons, s.tlsCons.erase conn.RemoteAddr, decr s.ipNumMap ip⟩)) := by
  unfold closeConn at h
  cases hip : slicePrefix conn.RemoteAddr (LastIndex conn.RemoteAddr ':') with
  | none => simp [hip] at h
  | some ip =>
    simp only [hip] at h
    refine ⟨ip, hip, ?_⟩
    cases hn : isPlain network with
    | true =>
      left
      simp only [hn, if_true] at h
      exact ⟨rfl, (Option.some.inj h).symm⟩
    | false =>
      right
      simp only [hn] at h
      exact ⟨rfl, (Option.some.inj h).symm⟩

/-! ## Counters -/

theorem valueAt_incr (m : GoMap Int) (ip a : String) :
    valueAt (incr m ip) a = valueAt m a + (if a = ip then 1 else 0) := by
  unfold incr
  by_cases h : a = ip
  · subst h
    simp [valueAt_insert_self]
  · simp [valueAt_insert_of_ne _ _ _ _ h, h]

theorem valueAt_decr (m : GoMap Int) (ip a : String) :
    valueAt (decr m ip) a = valueAt m a - (if a = ip then 1 else 0) := by
  unfold decr
  by_cases h : a = ip
  · subst h
    by_cases hz : valueAt m a - 1 = 0
    · simp [valueAt_insert_self, hz, valueAt_erase_self]
    · simp [valueAt_insert_self, hz]
  · by_cases hz : valueAt m ip - 1 = 0
    · simp [valueAt_insert_self, hz, valueAt_erase_of_ne _ _ _ h,
        valueAt_insert_of_ne _ _ _ _ h, h]
    · simp [valueAt_insert_self, hz, valueAt_insert_of_ne _ _ _ _ h, h]

theorem noZero_incr (m : GoMap Int) (ip : String) (hm : NoZero m) (h : 0 ≤ valueAt m ip) :
    NoZero (incr m ip) := by
  intro a
  unfold incr
  by_cases ha : a = ip
  · subst ha
    rw [Finmap.lookup_insert]
    intro hc
    have := Option.some.inj hc
    omega
  · rw [Finmap.lookup_insert_of_ne _ ha]
    exact hm a

theorem noZero_decr (m : GoMap Int) (ip : String) (hm : NoZero m) : NoZero (decr m ip) := by
  intro a
  unfold decr
  by_cases hz : valueAt m ip - 1 = 0
  · simp only [valueAt_insert_self, hz, if_true]
    by_cases ha : a = ip
    · subst ha
      simp [Finmap.lookup_erase]
    · rw [Finmap.lookup_erase_ne ha, Finmap.lookup_insert_of_ne _ ha]
      exact hm a
  · simp only [valueAt_insert_self, hz, if_false]
    by_cases ha : a = ip
    · subst ha
      rw [Finmap.lookup_insert]
      intro hc
      exact hz (Option.some.inj hc)
    · rw [Finmap.lookup_insert_of_ne _ ha]
      exact hm a

theorem ipCountIn_insert {V : Type} (m : GoMap V) (k ip a : String) (v : V) (hk : k ∉ m)
    (hip : ipOf k = some ip) :
    ipCountIn (m.insert k v) a = ipCountIn m a + (if a = ip then 1 else 0) := by
  unfold ipCountIn
  rw [keys_insert, Finset.filter_insert]
  have hk1 : k ∉ m.keys := by simpa [Finmap.mem_keys] using hk
  by_cases ha : a = ip
  · subst ha
    have hk2 : k ∉ m.keys.filter (fun x => ipOf x = some a) := fun hc =>
      hk1 (Finset.mem_filter.mp hc).1
    simp [hip, Finset.card_insert_of_not_mem hk2]
  · have : ¬ (ipOf k = some a) := by
      rw [hip]
      intro hc
      exact ha (Option.some.inj hc).symm
    simp [this, ha]

theorem ipCountIn_erase {V : Type} (m : GoMap V) (k ip a : String) (hk : k ∈ m)
    (hip : ipOf k = some ip) :
    ipCountIn (m.erase k) a + (if a = ip then 1 else 0) = ipCountIn m a := by
  unfold ipCountIn
  rw [Finmap.keys_erase, Finset.filter_erase]
  have hk1 : k ∈ m.keys := by simpa [Finmap.mem_keys] using hk
  by_cases ha : a = ip
  · subst ha
    have hk2 : k ∈ m.keys.filter (fun x => ipOf x = some a) :=
      Finset.mem_filter.mpr ⟨hk1, hip⟩
    simp [Finset.card_erase_add_one hk2]
  · have hk2 : k ∉ m.keys.filter (fun x => ipOf x = some a) := by
      intro hc
      have := (Finset.mem_filter.mp hc).2
      rw [hip] at this
      exact ha (Option.some.inj this).symm
    simp [ha, Finset.erase_eq_of_not_mem hk2]

/-! ## The invariant along admit and release -/

theorem inv_empty : Inv State.empty := by
  refine ⟨⟨?_, ?_⟩, ?_, ?_⟩
  · intro a ha
    exact absurd ha (Finmap.not_mem_empty)
  · intro a ha
    exact absurd ha (Finmap.not_mem_empty)
  · intro ip
    simp [State.empty, valueAt, ipCount, ipCountIn, Finmap.lookup_empty]
  · intro ip
    simp [State.empty, Finmap.lookup_empty]

theorem inv_check_tcp (s : State) (k ip : String) (c : TCPConn) (hs : Inv s)
    (hk : k ∉ s.tcpCons) (hip : ipOf k = some ip) :
    Inv ⟨s.tcpCons.insert k c, s.tlsCons, incr s.ipNumMap ip⟩ := by
  obtain ⟨⟨hK1, hK2⟩, hC, hZ⟩ := hs
  refine ⟨⟨?_, hK2⟩, ?_, ?_⟩
  · intro a ha
    rcases Finmap.mem_insert.mp ha with h | h
    · exact ⟨ip, h ▸ hip⟩
    · exact hK1 a h
  · intro a
    have := hC a
    simp only [ipCount] at this ⊢
    rw [valueAt_incr, ipCountIn_insert _ _ ip _ _ hk hip, this]
    split <;> push_cast <;> ring
  · apply noZero_incr _ _ hZ
    rw [hC ip]
    exact Int.natCast_nonneg _

theorem inv_check_tls (s : State) (k ip : String) (c : TLSConn) (hs : Inv s)
    (hk : k ∉ s.tlsCons) (hip : ipOf k = some ip) :
    Inv ⟨s.tcpCons, s.tlsCons.insert k c, incr s.ipNumMap ip⟩ := by
  obtain ⟨⟨hK1, hK2⟩, hC, hZ⟩ := hs
  refine ⟨⟨hK1, ?_⟩, ?_, ?_⟩
  · intro a ha
    rcases Finmap.mem_insert.mp ha with h | h
    · exact ⟨ip, h ▸ hip⟩
    · exact hK2 a h
  · intro a
    have := hC a
    simp only [ipCount] at this ⊢
    rw [valueAt_incr, ipCountIn_insert _ _ ip _ _ hk hip, this]
    split <;> push_cast <;> ring
  · apply noZero_incr _ _ hZ
    rw [hC ip]
    exact Int.natCast_nonneg _

theorem inv_close_tcp (s : State) (k ip : String) (hs : Inv s)
    (hk : k ∈ s.tcpCons) (hip : ipOf k = some ip) :
    Inv ⟨s.tcpCons.erase k, s.tlsCons, decr s.ipNumMap ip⟩ := by
  obtain ⟨⟨hK1, hK2⟩, hC, hZ⟩ := hs
  refine ⟨⟨?_, hK2⟩, ?_, noZero_decr _ _ hZ⟩
  · intro a ha
    exact hK1 a (Finmap.mem_erase.mp ha).2
  · intro a
    have := hC a
    have he := ipCountIn_erase s.tcpCons k ip a hk hip
    simp only [ipCount] at this ⊢
    rw [valueAt_decr, this, ← he]
    split <;> push_cast <;> ring

theorem inv_close_tls (s : State) (k ip : String) (hs : Inv s)
    (hk : k ∈ s.tlsCons) (hip : ipOf k = some ip) :
    Inv ⟨s.tcpCons, s.tlsCons.erase k, decr s.ipNumMap ip⟩ := by
  obtain ⟨⟨hK1, hK2⟩, hC, hZ⟩ := hs
  refine ⟨⟨hK1, ?_⟩, ?_, noZero_decr _ _ hZ⟩
  · intro a ha
    exact hK2 a (Finmap.mem_erase.mp ha).2
  · intro a
    have := hC a
    have he := ipCountIn_erase s.tlsCons k ip a hk hip
    simp only [ipCount] at this ⊢
    rw [valueAt_decr, this, ← he]
    split <;> push_cast <;> ring

theorem inv_step (cfg : Config) (s t : State) (op : Op) (hs : Inv s)
    (hok : opOk s op = true) (h : step cfg s op = some t) : Inv t := by
  cases op with
  | check conn network =>
    simp only [opOk, Bool.and_eq_true, decide_eq_true_eq] at hok
    simp only [step] at h
    cases hr : checkConn cfg s conn network with
    | none => simp [hr] at h
    | some r =>
      have h : r.state = t := by
        rw [hr] at h
        exact Option.some.inj h
      subst h
      rcases checkConn_cases cfg s conn network r hr with h1 | h2 | h3
      · subst h1
        exact hs
      · obtain ⟨ip, c, hip, -, -, -, -, rfl⟩ := h2
        exact inv_check_tcp s _ ip c hs hok.1 hip
      · obtain ⟨ip, c, hip, -, -, -, -, rfl⟩ := h3
        exact inv_check_tls s _ ip c hs hok.2 hip
  | close conn network =>
    simp only [step] at h
    obtain ⟨ip, hip, h1 | h1⟩ := closeConn_cases s conn network t h
    · obtain ⟨hn, rfl⟩ := h1
      simp only [opOk, hn, if_true, decide_eq_true_eq] at hok
      exact inv_close_tcp s _ ip hs hok hip
    · obtain ⟨hn, rfl⟩ := h1
      simp only [opOk, hn, decide_eq_true_eq] at hok
      exact inv_close_tls s _ ip hs (by simpa using hok) hip

theorem inv_run (cfg : Config) (ops : List Op) :
    ∀ s t : State, Inv s → traceOk cfg s ops = true → run cfg s ops = some t → Inv t := by
  induction ops with
  | nil =>
    intro s t hs _ h
    simp only [run] at h
    exact (Option.some.inj h) ▸ hs
  | cons op ops ih =>
    intro s t hs hok h
    simp only [run] at h
    cases hst : step cfg s op with
    | none => simp [hst] at h
    | some s1 =>
      simp only [hst, Option.some_bind] at h
      simp only [traceOk, hst, Bool.and_eq_true] at hok
      exact ih s1 t (inv_step cfg s s1 op hs hok.1 hst) hok.2 h

theorem sum_fiber {V : Type} (m : GoMap V) (ips : Finset String)
    (hK : ∀ a, a ∈ m → ∃ ip, ipOf a = some ip ∧ ip ∈ ips) :
    ∑ ip in ips, ipCountIn m ip = len m := by
  unfold ipCountIn len
  have hmap : ∀ x ∈ m.keys, (ipOf x).getD "" ∈ ips := by
    intro x hx
    obtain ⟨ip, h1, h2⟩ := hK x (Finmap.mem_keys.mp hx)
    simpa [h1] using h2
  rw [Finset.card_eq_sum_card_fiberwise hmap]
  apply Finset.sum_congr rfl
  intro ip _
  congr 1
  apply Finset.filter_congr
  intro x hx
  obtain ⟨ip1, h1, -⟩ := hK x (Finmap.mem_keys.mp hx)
  simp [h1]

theorem sum_eq_total (s : State) (hs : Inv s) : sumVals s.ipNumMap = (s.total : Int) := by
  obtain ⟨⟨hK1, hK2⟩, hC, hZ⟩ := hs
  have hmem : ∀ ip, 0 < ipCount s ip → ip ∈ s.ipNumMap.keys := by
    intro ip hpos
    rw [Finmap.mem_keys]
    by_contra hn
    have hl := Finmap.lookup_eq_none.mpr hn
    have := hC ip
    simp only [valueAt, hl, Option.getD_none] at this
    omega
  have h1 : ∑ ip in s.ipNumMap.keys, ipCountIn s.tcpCons ip = len s.tcpCons := by
    apply sum_fiber
    intro a ha
    obtain ⟨ip, hip⟩ := hK1 a ha
    refine ⟨ip, hip, hmem ip ?_⟩
    have : 0 < ipCountIn s.tcpCons ip :=
      Finset.card_pos.mpr ⟨a, Finset.mem_filter.mpr ⟨Finmap.mem_keys.mpr ha, hip⟩⟩
    unfold ipCount
    omega
  have h2 : ∑ ip in s.ipNumMap.keys, ipCountIn s.tlsCons ip = len s.tlsCons := by
    apply sum_fiber
    intro a ha
    obtain ⟨ip, hip⟩ := hK2 a ha
    refine ⟨ip, hip, hmem ip ?_⟩
    have : 0 < ipCountIn s.tlsCons ip :=
      Finset.card_pos.mpr ⟨a, Finset.mem_filter.mpr ⟨Finmap.mem_keys.mpr ha, hip⟩⟩
    unfold ipCount
    omega
  unfold sumVals State.total
  rw [Finset.sum_congr rfl (fun ip _ => hC ip)]
  simp only [ipCount]
  rw [← h1, ← h2]
  push_cast
  rw [Finset.sum_add_distrib]

theorem total_step_le (cfg : Config) (s t : State) (op : Op)
    (hs : (s.total : Int) ≤ cfg.MaxConnNum) (h : step cfg s op = some t) :
    (t.total : Int) ≤ cfg.MaxConnNum := by
  cases op with
  | check conn network =>
    simp only [step] at h
    cases hr : checkConn cfg s conn network with
    | none => simp [hr] at h
    | some r =>
      have h : r.state = t := by
        rw [hr] at h
        exact Option.some.inj h
      subst h
      rcases checkConn_cases cfg s conn network r hr with h1 | h2 | h3
      · subst h1
        exact hs
      · obtain ⟨ip, c, -, hlt, -, -, -, rfl⟩ := h2
        have := len_insert_le s.tcpCons conn.RemoteAddr c
        simp only [State.total] at hlt ⊢
        omega
      · obtain ⟨ip, c, -, hlt, -, -, -, rfl⟩ := h3
        have := len_insert_le s.tlsCons conn.RemoteAddr c
        simp only [State.total] at hlt ⊢
        omega
  | close conn network =>
    simp only [step] at h
    obtain ⟨ip, -, h1 | h1⟩ := closeConn_cases s conn network t h
    · obtain ⟨-, rfl⟩ := h1
      have := len_erase_le s.tcpCons conn.RemoteAddr
      simp only [State.total] at hs ⊢
      omega
    · obtain ⟨-, rfl⟩ := h1
      have := len_erase_le s.tlsCons conn.RemoteAddr
      simp only [State.total] at hs ⊢
      omega

theorem total_run_le (cfg : Config) (ops : List Op) :
    ∀ s t : State, (s.total : Int) ≤ cfg.MaxConnNum → run cfg s ops = some t →
      (t.total : Int) ≤ cfg.MaxConnNum := by
  induction ops with
  | nil =>
    intro s t hs h
    simp only [run] at h
    exact (Option.some.inj h) ▸ hs
  | cons op ops ih =>
    intro s t hs h
    simp only [run] at h
    cases hst : step cfg s op with
    | none => simp [hst] at h
    | some s1 =>
      simp only [hst, Option.some_bind] at h
      exact ih s1 t (total_step_le cfg s s1 op hs hst) h

theorem checkConn_at_cap (cfg : Config) (s : State) (conn : Conn) (network : String)
    (h : cfg.MaxConnNum ≤ (s.total : Int)) :
    checkConn cfg s conn network = some ⟨false, s, [conn]⟩ := by
  unfold checkConn
  unfold State.total at h
  rw [if_pos h]

theorem counter_step_le (cfg : Config) (ip : String) (B : Int)
    (hgate : ∀ n : Int, ¬ (cfg.MaxIpConnNum ≤ n ∧ valueAt cfg.IpWhiteList ip ≤ (n : ℚ)) →
      n + 1 ≤ B)
    (s t : State) (op : Op) (hs : valueAt s.ipNumMap ip ≤ B) (h : step cfg s op = some t) :
    valueAt t.ipNumMap ip ≤ B := by
  cases op with
  | check conn network =>
    simp only [step] at h
    cases hr : checkConn cfg s conn network with
    | none => simp [hr] at h
    | some r =>
      have h : r.state = t := by
        rw [hr] at h
        exact Option.some.inj h
      subst h
      have key : ∀ ip1, ¬ (cfg.MaxIpConnNum ≤ valueAt s.ipNumMap ip1 ∧
          valueAt cfg.IpWhiteList ip1 ≤ ((valueAt s.ipNumMap ip1 : Int) : ℚ)) →
          valueAt (incr s.ipNumMap ip1) ip ≤ B := by
        intro ip1 hc
        rw [valueAt_incr]
        by_cases he : ip = ip1
        · subst he
          simpa using hgate _ hc
        · simpa [he] using hs
      rcases checkConn_cases cfg s conn network r hr with h1 | h2 | h3
      · subst h1
        exact hs
      · obtain ⟨ip1, c, -, -, hc, -, -, rfl⟩ := h2
        exact key ip1 hc
      · obtain ⟨ip1, c, -, -, hc, -, -, rfl⟩ := h3
        exact key ip1 hc
  | close conn network =>
    simp only [step] at h
    have key : ∀ ip1, valueAt (decr s.ipNumMap ip1) ip ≤ B := by
      intro ip1
      rw [valueAt_decr]
      split <;> omega
    obtain ⟨ip1, -, h1 | h1⟩ := closeConn_cases s conn network t h
    · obtain ⟨-, rfl⟩ := h1
      exact key ip1
    · obtain ⟨-, rfl⟩ := h1
      exact key ip1

theorem counter_run_le (cfg : Config) (ip : String) (B : Int)
    (hgate : ∀ n : Int, ¬ (cfg.MaxIpConnNum ≤ n ∧ valueAt cfg.IpWhiteList ip ≤ (n : ℚ)) →
      n + 1 ≤ B)
    (ops : List Op) :
    ∀ s t : State, valueAt s.ipNumMap ip ≤ B → run cfg s ops = some t →
      valueAt t.ipNumMap ip ≤ B := by
  induction ops with
  | nil =>
    intro s t hs h
    simp only [run] at h
    exact (Option.some.inj h) ▸ hs
  | cons op ops ih =>
    intro s t hs h
    simp only [run] at h
    cases hst : step cfg s op with
    | none => simp [hst] at h
    | some s1 =>
      simp only [hst, Option.some_bind] at h
      exact ih s1 t (counter_step_le cfg ip B hgate s s1 op hs hst) h

theorem valueAt_empty (ip : String) : valueAt State.empty.ipNumMap ip = 0 := by
  simp [State.empty, valueAt, Finmap.lookup_empty]

/-! ## The IP part of an address -/

theorem lastIdx_none (sep : Char) (ys : List Char) (h : sep ∉ ys) : lastIdx sep ys = none := by
  induction ys with
  | nil => rfl
  | cons y ys ih =>
    have h1 : sep ∉ ys := fun hc => h (List.mem_cons_of_mem _ hc)
    have h2 : y ≠ sep := fun hc => h (hc ▸ List.mem_cons_self _ _)
    simp [lastIdx, ih h1, h2]

theorem lastIdx_append (sep : Char) (xs ys : List Char) (h : sep ∉ ys) :
    lastIdx sep (xs ++ sep :: ys) = some xs.length := by
  induction xs with
  | nil => simp [lastIdx, lastIdx_none sep ys h]
  | cons x xs ih => simp [lastIdx, ih]

theorem ipOf_append (ip port : String) (h : ':' ∉ port.data) :
    ipOf (ip ++ ":" ++ port) = some ip := by
  have hd : (ip ++ ":" ++ port).data = ip.data ++ ':' :: port.data := by
    simp [String.data_append]
  unfold ipOf LastIndex slicePrefix
  rw [hd, lastIdx_append ':' ip.data port.data h]
  simp
  omega

/-! ## Admit followed by release -/

theorem erase_insert_self {V : Type} (m : GoMap V) (k : String) (v : V) (h : k ∉ m) :
    (m.insert k v).erase k = m := by
  apply Finmap.ext_lookup
  intro x
  by_cases hx : x = k
  · subst hx
    rw [Finmap.lookup_erase, Finmap.lookup_eq_none.mpr h]
  · rw [Finmap.lookup_erase_ne hx, Finmap.lookup_insert_of_ne _ hx]

theorem lookup_of_valueAt_zero (m : GoMap Int) (ip : String) (hm : NoZero m)
    (h : valueAt m ip = 0) : m.lookup ip = none := by
  cases hl : m.lookup ip with
  | none => rfl
  | some v =>
    simp only [valueAt, hl, Option.getD_some] at h
    subst h
    exact absurd hl (hm ip)

theorem lookup_of_valueAt_ne_zero (m : GoMap Int) (ip : String) (h : valueAt m ip ≠ 0) :
    m.lookup ip = some (valueAt m ip) := by
  cases hl : m.lookup ip with
  | none => simp [valueAt, hl] at h
  | some v => simp [valueAt, hl]

theorem decr_incr (m : GoMap Int) (ip : String) (hm : NoZero m) : decr (incr m ip) ip = m := by
  unfold decr incr
  simp only [valueAt_insert_self, Finmap.insert_insert, add_sub_cancel_right]
  apply Finmap.ext_lookup
  intro x
  by_cases hz : valueAt m ip = 0
  · rw [if_pos hz]
    by_cases hx : x = ip
    · subst hx
      rw [Finmap.lookup_erase, lookup_of_valueAt_zero m x hm hz]
    · rw [Finmap.lookup_erase_ne hx, Finmap.lookup_insert_of_ne _ hx]
  · rw [if_neg hz]
    by_cases hx : x = ip
    · subst hx
      rw [Finmap.lookup_insert, lookup_of_valueAt_ne_zero m x hz]
    · rw [Finmap.lookup_insert_of_ne _ hx]

theorem isPlain_iff (network : String) :
    isPlain network = true ↔ network = "tcp" ∨ network = "ws" := by
  simp [isPlain]

theorem slicePrefix_of_addr (addr ip port : String) (haddr : addr = ip ++ ":" ++ port)
    (hport : ':' ∉ port.data) : slicePrefix addr (LastIndex addr ':') = some ip := by
  rw [haddr]
  exact ipOf_append ip port hport

theorem checkConn_accepts (cfg : Config) (s : State) (conn : Conn) (network ip : String)
    (hip : slicePrefix conn.RemoteAddr (LastIndex conn.RemoteAddr ':') = some ip)
    (hfit : conn.fits network = true) (hlt : (s.total : Int) < cfg.MaxConnNum)
    (hc : ¬ (cfg.MaxIpConnNum ≤ valueAt s.ipNumMap ip ∧
        valueAt cfg.IpWhiteList ip ≤ ((valueAt s.ipNumMap ip : Int) : ℚ))) :
    ∃ r, checkConn cfg s conn network = some r ∧ r.ok = true := by
  have hg : ¬ (cfg.MaxConnNum ≤ ((len s.tcpCons + len s.tlsCons : Nat) : Int)) := by
    unfold State.total at hlt
    exact not_le.mpr hlt
  unfold checkConn
  rw [if_neg hg]
  simp only [hip]
  rw [if_neg hc]
  cases hn : isPlain network with
  | true =>
    cases conn with
    | tls c => simp [Conn.fits, hn, Conn.assertTCP] at hfit
    | tcp c => simp [Conn.assertTCP]
  | false =>
    cases conn with
    | tcp c => simp [Conn.fits, hn, Conn.assertTLS] at hfit
    | tls c => simp [Conn.assertTLS]

/-! ## The claims -/

/-- C1: starting from the empty state, after every executed sequence of `checkConn` and
`closeConn` calls in which each admitted connection has an address no live connection
has and each release is for an address registered in the registry of the kind given,
the values of `ipNumMap` sum to `len(tcpCons) + len(tlsCons)` and no entry of
`ipNumMap` is `0`.  (A call whose address has no colon panics once it reaches the
slice expression, so an executed sequence has none.) -/
theorem counters_sum_to_registered (cfg : Config) (ops : List Op) (s : State)
    (hok : traceOk cfg State.empty ops = true) (hrun : run cfg State.empty ops = some s) :
    sumVals s.ipNumMap = ((len s.tcpCons + len s.tlsCons : Nat) : Int) ∧
      ∀ ip, s.ipNumMap.lookup ip ≠ some 0 := by
  have hi := inv_run cfg ops State.empty s inv_empty hok hrun
  exact ⟨sum_eq_total s hi, hi.2.2⟩

/-- Witness of C1: admit `connA`, admit `connB`, release `connA`. -/
theorem counters_sum_to_registered_witness :
    traceOk cfgTwo State.empty
        [Op.check connA "tcp", Op.check connB "tls", Op.close connA "tcp"] = true ∧
      run cfgTwo State.empty
        [Op.check connA "tcp", Op.check connB "tls", Op.close connA "tcp"] = some stateB ∧
      sumVals stateB.ipNumMap = ((len stateB.tcpCons + len stateB.tlsCons : Nat) : Int) ∧
      ∀ ip, stateB.ipNumMap.lookup ip ≠ some 0 :=
  ⟨by decide, by decide,
    counters_sum_to_registered cfgTwo
      [Op.check connA "tcp", Op.check connB "tls", Op.close connA "tcp"] stateB
      (by decide) (by decide)⟩

/-- C2: with `MaxConnNum >= 0`, after every executed sequence of `checkConn` and
`closeConn` calls from the empty state `len(tcpCons) + len(tlsCons)` is at most
`MaxConnNum`; and in any state whose total equals `MaxConnNum` a `checkConn` call
returns false and leaves the total unchanged. -/
theorem total_never_exceeds_MaxConnNum (cfg : Config) (h0 : 0 ≤ cfg.MaxConnNum)
    (ops : List Op) (s : State) (hrun : run cfg State.empty ops = some s) :
    (s.total : Int) ≤ cfg.MaxConnNum ∧
      ∀ (t : State) (conn : Conn) (network : String), (t.total : Int) = cfg.MaxConnNum →
        ∃ r, checkConn cfg t conn network = some r ∧ r.ok = false ∧
          r.state.total = t.total := by
  refine ⟨total_run_le cfg ops State.empty s ?_ hrun, ?_⟩
  · simpa [State.empty, State.total, len] using h0
  · intro t conn network ht
    exact ⟨_, checkConn_at_cap cfg t conn network (le_of_eq ht.symm), rfl, rfl⟩

/-- Witness of C2: `MaxConnNum = 2`, two connections from distinct IPs are admitted, a
third is rejected and the total stays 2. -/
theorem total_never_exceeds_MaxConnNum_witness :
    (0 : Int) ≤ cfgTwo.MaxConnNum ∧
      run cfgTwo State.empty [Op.check connA "tcp", Op.check connB "tls"] = some stateAB ∧
      (stateAB.total : Int) ≤ cfgTwo.MaxConnNum ∧
      ∃ r, checkConn cfgTwo stateAB connC "tcp" = some r ∧ r.ok = false ∧
        r.state.total = stateAB.total :=
  ⟨by decide, by decide,
    (total_never_exceeds_MaxConnNum cfgTwo (by decide)
      [Op.check connA "tcp", Op.check connB "tls"] stateAB (by decide)).1,
    (total_never_exceeds_MaxConnNum cfgTwo (by decide)
      [Op.check connA "tcp", Op.check connB "tls"] stateAB (by decide)).2
      stateAB connC "tcp" (by decide)⟩

/-- C3: with `MaxIpConnNum >= 0` and an IP that has no entry in `IpWhiteList`, after
every executed sequence of `checkConn` and `closeConn` calls from the empty state (live
addresses distinct, each release for an address registered under the kind given) the
counter `ipNumMap[ip]`, and the number of registered connections with that IP, is at
most `MaxIpConnNum`. -/
theorem perIp_never_exceeds_MaxIpConnNum (cfg : Config) (h0 : 0 ≤ cfg.MaxIpConnNum)
    (ip : String) (hw : ip ∉ cfg.IpWhiteList) (ops : List Op) (s : State)
    (hok : traceOk cfg State.empty ops = true) (hrun : run cfg State.empty ops = some s) :
    valueAt s.ipNumMap ip ≤ cfg.MaxIpConnNum ∧ (ipCount s ip : Int) ≤ cfg.MaxIpConnNum := by
  have hwl : valueAt cfg.IpWhiteList ip = 0 := by
    simp [valueAt, Finmap.lookup_eq_none.mpr hw]
  have hgate : ∀ n : Int,
      ¬ (cfg.MaxIpConnNum ≤ n ∧ valueAt cfg.IpWhiteList ip ≤ (n : ℚ)) →
        n + 1 ≤ cfg.MaxIpConnNum := by
    intro n hn
    rw [hwl] at hn
    by_cases h1 : cfg.MaxIpConnNum ≤ n
    · have h2 : ¬ ((0 : ℚ) ≤ (n : ℚ)) := fun hc => hn ⟨h1, hc⟩
      have h3 : ¬ (0 ≤ n) := fun hc => h2 (by exact_mod_cast hc)
      omega
    · omega
  have hc := counter_run_le cfg ip cfg.MaxIpConnNum hgate ops State.empty s
    (by rw [valueAt_empty]; exact h0) hrun
  have hi := inv_run cfg ops State.empty s inv_empty hok hrun
  refine ⟨hc, ?_⟩
  rw [← hi.2.1 ip]
  exact hc

/-- Witness of C3: `MaxIpConnNum = 1`, no allow-list; a second connection from
`10.0.0.1` is turned away. -/
theorem perIp_never_exceeds_MaxIpConnNum_witness :
    (0 : Int) ≤ cfgTwo.MaxIpConnNum ∧ "10.0.0.1" ∉ cfgTwo.IpWhiteList ∧
      traceOk cfgTwo State.empty [Op.check connA "tcp", Op.check connA2 "ws"] = true ∧
      run cfgTwo State.empty [Op.check connA "tcp", Op.check connA2 "ws"] = some stateA ∧
      valueAt stateA.ipNumMap "10.0.0.1" ≤ cfgTwo.MaxIpConnNum ∧
      (ipCount stateA "10.0.0.1" : Int) ≤ cfgTwo.MaxIpConnNum :=
  ⟨by decide, by decide, by decide, by decide,
    perIp_never_exceeds_MaxIpConnNum cfgTwo (by decide) "10.0.0.1" (by decide)
      [Op.check connA "tcp", Op.check connA2 "ws"] stateA (by decide) (by decide)⟩

/-- C6: when `checkConn` returns false the three maps are what they were before the
call and `checkConn` has called `Close` on the connection exactly once; when it returns
true it has closed nothing. -/
theorem reject_leaves_no_registration (cfg : Config) (s : State) (conn : Conn)
    (network : String) (r : CheckResult) (h : checkConn cfg s conn network = some r) :
    (r.ok = false → r.state = s ∧ r.closed = [conn] ∧ r.closed.count conn = 1) ∧
      (r.ok = true → r.closed = [] ∧ r.closed.count conn = 0) := by
  rcases checkConn_cases cfg s conn network r h with h1 | h2 | h3
  · subst h1
    simp
  · obtain ⟨ip, c, -, -, -, -, -, rfl⟩ := h2
    simp
  · obtain ⟨ip, c, -, -, -, -, -, rfl⟩ := h3
    simp

/-- Witness of C6: the third connection under `MaxConnNum = 2`. -/
theorem reject_leaves_no_registration_witness :
    checkConn cfgTwo stateAB connC "tcp" = some ⟨false, stateAB, [connC]⟩ ∧
      ((false = false → stateAB = stateAB ∧ [connC] = [connC] ∧ [connC].count connC = 1) ∧
        (false = true → [connC] = [] ∧ [connC].count connC = 0)) :=
  ⟨by decide,
    reject_leaves_no_registration cfgTwo stateAB connC "tcp" ⟨false, stateAB, [connC]⟩
      (by decide)⟩

/-- C10: in a state whose counter map has no zero entry (part of the registry/counter
invariant), if `checkConn` returns true for a connection whose address is not yet in
the registry of its kind, then `closeConn` for the same connection and kind gives back
exactly the state before the admit. -/
theorem check_close_roundtrip (cfg : Config) (s : State) (conn : Conn) (network : String)
    (r : CheckResult) (hz : NoZero s.ipNumMap)
    (hfresh : if isPlain network = true then conn.RemoteAddr ∉ s.tcpCons
      else conn.RemoteAddr ∉ s.tlsCons)
    (h : checkConn cfg s conn network = some r) (hok : r.ok = true) :
    closeConn r.state conn network = some s := by
  rcases checkConn_cases cfg s conn network r h with h1 | h2 | h3
  · subst h1
    simp at hok
  · obtain ⟨ip, c, hip, -, -, hn, -, rfl⟩ := h2
    rw [if_pos hn] at hfresh
    unfold ipOf at hip
    simp only [closeConn, hn, if_true, hip, erase_insert_self _ _ _ hfresh, decr_incr _ _ hz]
  · obtain ⟨ip, c, hip, -, -, hn, -, rfl⟩ := h3
    rw [if_neg (by simp [hn])] at hfresh
    unfold ipOf at hip
    simp [closeConn, hn, hip, erase_insert_self _ _ _ hfresh, decr_incr _ _ hz]

/-- Witness of C10: with `connA` registered, `connA2` from the same allow-listed IP is
admitted and released again. -/
theorem check_close_roundtrip_witness :
    NoZero stateA.ipNumMap ∧
      (if isPlain "ws" = true then connA2.RemoteAddr ∉ stateA.tcpCons
        else connA2.RemoteAddr ∉ stateA.tlsCons) ∧
      checkConn cfgWhite stateA connA2 "ws" = some ⟨true, stateAA2, []⟩ ∧
      closeConn stateAA2 connA2 "ws" = some stateA :=
  ⟨(inv_run cfgTwo [Op.check connA "tcp"] State.empty stateA inv_empty
      (by decide) (by decide)).2.2,
    by decide, by decide,
    check_close_roundtrip cfgWhite stateA connA2 "ws" ⟨true, stateAA2, []⟩
      ((inv_run cfgTwo [Op.check connA "tcp"] State.empty stateA inv_empty
        (by decide) (by decide)).2.2)
      (by decide) (by decide) rfl⟩

/-- C5: for every state, configuration and transport kind, and every connection accepted
by the listener of that kind whose address is `ip:port` (`ip` the part before the last
colon), `checkConn` returns; it returns true exactly when
`len(tcpCons) + len(tlsCons) < MaxConnNum` and not (`current >= MaxIpConnNum` and
`current >= whiteCap`); and then `ipNumMap[ip]` is `current + 1`, the connection is
stored under its full address in `tcpCons` for "tcp" and "ws" or in `tlsCons` for "tls"
and "wss", and every other entry of the three maps is as before. -/
theorem checkConn_decision (cfg : Config) (s : State) (conn : Conn) (network : String)
    (ip port : String) (haddr : conn.RemoteAddr = ip ++ ":" ++ port)
    (hport : ':' ∉ port.data) (hfit : conn.fits network = true) :
    ∃ r, checkConn cfg s conn network = some r ∧
      (r.ok = true ↔
        ((s.total : Int) < cfg.MaxConnNum ∧
          ¬ (cfg.MaxIpConnNum ≤ valueAt s.ipNumMap ip ∧
              valueAt cfg.IpWhiteList ip ≤ ((valueAt s.ipNumMap ip : Int) : ℚ)))) ∧
      (r.ok = true →
        (∀ a, r.state.ipNumMap.lookup a =
            if a = ip then some (valueAt s.ipNumMap ip + 1) else s.ipNumMap.lookup a) ∧
        (network = "tcp" ∨ network = "ws" →
          r.state.tlsCons = s.tlsCons ∧
          ∃ c, conn = Conn.tcp c ∧ ∀ a, r.state.tcpCons.lookup a =
            if a = conn.RemoteAddr then some c else s.tcpCons.lookup a) ∧
        (network = "tls" ∨ network = "wss" →
          r.state.tcpCons = s.tcpCons ∧
          ∃ c, conn = Conn.tls c ∧ ∀ a, r.state.tlsCons.lookup a =
            if a = conn.RemoteAddr then some c else s.tlsCons.lookup a)) := by
  have hip := slicePrefix_of_addr conn.RemoteAddr ip port haddr hport
  have hins : ∀ {V : Type} (m : GoMap V) (k : String) (v : V) (a : String),
      (m.insert k v).lookup a = if a = k then some v else m.lookup a := by
    intro V m k v a
    by_cases ha : a = k
    · subst ha
      simp [Finmap.lookup_insert]
    · simp [Finmap.lookup_insert_of_ne _ ha, ha]
  by_cases hg : cfg.MaxConnNum ≤ ((len s.tcpCons + len s.tlsCons : Nat) : Int)
  · refine ⟨⟨false, s, [conn]⟩, checkConn_at_cap cfg s conn network hg, ?_, by simp⟩
    have : ¬ ((s.total : Int) < cfg.MaxConnNum) := by
      unfold State.total
      exact not_lt.mpr hg
    simp [this]
  · have hlt : (s.total : Int) < cfg.MaxConnNum := by
      unfold State.total
      exact not_le.mp hg
    by_cases hc : cfg.MaxIpConnNum ≤ valueAt s.ipNumMap ip ∧
        valueAt cfg.IpWhiteList ip ≤ ((valueAt s.ipNumMap ip : Int) : ℚ)
    · refine ⟨⟨false, s, [conn]⟩, ?_, by simp [hc], by simp⟩
      unfold checkConn
      rw [if_neg hg]
      simp only [hip]
      rw [if_pos hc]
    · cases hn : isPlain network with
      | true =>
        cases conn with
        | tls c => simp [Conn.fits, hn, Conn.assertTCP] at hfit
        | tcp c =>
          refine ⟨⟨true, ⟨s.tcpCons.insert (Conn.tcp c).RemoteAddr c, s.tlsCons,
            incr s.ipNumMap ip⟩, []⟩, ?_, by simp [hlt, hc], fun _ => ⟨?_, ?_, ?_⟩⟩
          · unfold checkConn
            rw [if_neg hg]
            simp only [hip]
            rw [if_neg hc]
            simp [hn, Conn.assertTCP]
          · intro a
            exact hins _ _ _ a
          · intro _
            exact ⟨rfl, c, rfl, fun a => hins _ _ _ a⟩
          · intro hk
            rcases hk with hk | hk <;> subst hk <;> simp [isPlain] at hn
      | false =>
        cases conn with
        | tcp c => simp [Conn.fits, hn, Conn.assertTLS] at hfit
        | tls c =>
          refine ⟨⟨true, ⟨s.tcpCons, s.tlsCons.insert (Conn.tls c).RemoteAddr c,
            incr s.ipNumMap ip⟩, []⟩, ?_, by simp [hlt, hc], fun _ => ⟨?_, ?_, ?_⟩⟩
          · unfold checkConn
            rw [if_neg hg]
            simp only [hip]
            rw [if_neg hc]
            simp [hn, Conn.assertTLS]
          · intro a
            exact hins _ _ _ a
          · intro hk
            rcases hk with hk | hk <;> subst hk <;> simp [isPlain] at hn
          · intro _
            exact ⟨rfl, c, rfl, fun a => hins _ _ _ a⟩

/-- Witness of C5: the first connection from `10.0.0.1` under `MaxConnNum = 2`. -/
theorem checkConn_decision_witness :
    connA.RemoteAddr = "10.0.0.1" ++ ":" ++ "5001" ∧ ':' ∉ "5001".data ∧
      connA.fits "tcp" = true ∧
      ∃ r, checkConn cfgTwo State.empty connA "tcp" = some r ∧ r.ok = true :=
  ⟨by decide, by decide, by decide,
    match checkConn_decision cfgTwo State.empty connA "tcp" "10.0.0.1" "5001"
      (by decide) (by decide) (by decide) with
    | ⟨r, hr, hiff, _⟩ => ⟨r, hr, hiff.mpr (by decide)⟩⟩

/-- C4, amended: with `MaxIpConnNum >= 0` and an IP whose `IpWhiteList` cap `W` is
greater than `MaxIpConnNum`: while the global cap is not reached, `checkConn` admits a
connection from that IP, accepted by the listener of its kind, whenever the IP's count
is below `W`, also when that count is `>= MaxIpConnNum`; it rejects every connection
from that IP once the count has reached `W`; and after every executed sequence of
`checkConn` and `closeConn` calls from the empty state in which live connections have
pairwise distinct addresses and each release is for an address registered under the
kind given, the IP's counter and its number of registered connections do not exceed
`W` rounded up to a whole number, which is `W` itself when `W` is whole. -/
theorem allow_list_cap (cfg : Config) (ip : String) (W : ℚ) (h0 : 0 ≤ cfg.MaxIpConnNum)
    (hW : cfg.IpWhiteList.lookup ip = some W) (hgt : (cfg.MaxIpConnNum : ℚ) < W) :
    (∀ (s : State) (conn : Conn) (network port : String),
        conn.RemoteAddr = ip ++ ":" ++ port → ':' ∉ port.data → conn.fits network = true →
        (s.total : Int) < cfg.MaxConnNum → ((valueAt s.ipNumMap ip : Int) : ℚ) < W →
        ∃ r, checkConn cfg s conn network = some r ∧ r.ok = true) ∧
    (∀ (s : State) (conn : Conn) (network port : String),
        conn.RemoteAddr = ip ++ ":" ++ port → ':' ∉ port.data →
        W ≤ ((valueAt s.ipNumMap ip : Int) : ℚ) →
        checkConn cfg s conn network = some ⟨false, s, [conn]⟩) ∧
    (∀ (ops : List Op) (s : State), traceOk cfg State.empty ops = true →
        run cfg State.empty ops = some s →
        valueAt s.ipNumMap ip ≤ ⌈W⌉ ∧ (ipCount s ip : Int) ≤ ⌈W⌉) := by
  have hwl : valueAt cfg.IpWhiteList ip = W := by
    simp [valueAt, hW]
  refine ⟨?_, ?_, ?_⟩
  · intro s conn network port haddr hport hfit hlt hcur
    apply checkConn_accepts cfg s conn network ip
      (slicePrefix_of_addr conn.RemoteAddr ip port haddr hport) hfit hlt
    rw [hwl]
    intro hc
    exact absurd hcur (not_lt.mpr hc.2)
  · intro s conn network port haddr hport hcur
    by_cases hg : cfg.MaxConnNum ≤ (s.total : Int)
    · exact checkConn_at_cap cfg s conn network hg
    · have hip := slicePrefix_of_addr conn.RemoteAddr ip port haddr hport
      have hm : cfg.MaxIpConnNum ≤ valueAt s.ipNumMap ip := by
        have : (cfg.MaxIpConnNum : ℚ) < ((valueAt s.ipNumMap ip : Int) : ℚ) :=
          lt_of_lt_of_le hgt hcur
        exact le_of_lt (by exact_mod_cast this)
      unfold State.total at hg
      unfold checkConn
      rw [if_neg hg]
      simp only [hip]
      rw [if_pos ⟨hm, by rw [hwl]; exact hcur⟩]
  · intro ops s hok hrun
    have hceil : cfg.MaxIpConnNum < ⌈W⌉ := Int.lt_ceil.mpr hgt
    have hgate : ∀ n : Int,
        ¬ (cfg.MaxIpConnNum ≤ n ∧ valueAt cfg.IpWhiteList ip ≤ (n : ℚ)) → n + 1 ≤ ⌈W⌉ := by
      intro n hn
      rw [hwl] at hn
      by_cases h1 : cfg.MaxIpConnNum ≤ n
      · have h2 : (n : ℚ) < W := not_le.mp (fun hc => hn ⟨h1, hc⟩)
        have h3 : n < ⌈W⌉ := Int.lt_ceil.mpr h2
        omega
      · omega
    have hc := counter_run_le cfg ip ⌈W⌉ hgate ops State.empty s
      (by rw [valueAt_empty]; omega) hrun
    have hi := inv_run cfg ops State.empty s inv_empty hok hrun
    refine ⟨hc, ?_⟩
    rw [← hi.2.1 ip]
    exact hc

/-- Witness of C4: `MaxIpConnNum = 1`, allow-list `10.0.0.1 -> 3`; three connections
from `10.0.0.1` are admitted and a fourth is rejected. -/
theorem allow_list_cap_witness :
    (0 : Int) ≤ cfgWhite.MaxIpConnNum ∧ cfgWhite.IpWhiteList.lookup "10.0.0.1" = some 3 ∧
      ((cfgWhite.MaxIpConnNum : Int) : ℚ) < 3 ∧
      run cfgWhite State.empty [Op.check connA "tcp", Op.check connA2 "ws"] = some stateAA2 ∧
      (∃ r, checkConn cfgWhite stateAA2 connA3 "tcp" = some r ∧ r.ok = true) ∧
      run cfgWhite State.empty
        [Op.check connA "tcp", Op.check connA2 "ws", Op.check connA3 "tcp"] = some stateAAA ∧
      checkConn cfgWhite stateAAA connA4 "tcp" = some ⟨false, stateAAA, [connA4]⟩ ∧
      valueAt stateAAA.ipNumMap "10.0.0.1" ≤ ⌈(3 : ℚ)⌉ ∧
      (ipCount stateAAA "10.0.0.1" : Int) ≤ ⌈(3 : ℚ)⌉ :=
  ⟨by decide, by decide, by decide, by decide,
    (allow_list_cap cfgWhite "10.0.0.1" 3 (by decide) (by decide) (by decide)).1
      stateAA2 connA3 "tcp" "5010" (by decide) (by decide) (by decide) (by decide)
      (by decide),
    by decide,
    (allow_list_cap cfgWhite "10.0.0.1" 3 (by decide) (by decide) (by decide)).2.1
      stateAAA connA4 "tcp" "5011" (by decide) (by decide) (by decide),
    (allow_list_cap cfgWhite "10.0.0.1" 3 (by decide) (by decide) (by decide)).2.2
      [Op.check connA "tcp", Op.check connA2 "ws", Op.check connA3 "tcp"] stateAAA
      (by decide) (by decide)⟩

/-- Counterexample to C4 as stated: with `MaxIpConnNum = 1` and the allow-list cap
`W = 5/2` for `10.0.0.1`, three connections from `10.0.0.1` are admitted, so the IP's
live-connection count is 3 and exceeds `W`. -/
theorem allow_list_cap_counterexample :
    cfgFrac.IpWhiteList.lookup "10.0.0.1" = some (mkRat 5 2) ∧
      ((cfgFrac.MaxIpConnNum : Int) : ℚ) < mkRat 5 2 ∧
      traceOk cfgFrac State.empty
        [Op.check connA "tcp", Op.check connA2 "ws", Op.check connA3 "tcp"] = true ∧
      run cfgFrac State.empty
        [Op.check connA "tcp", Op.check connA2 "ws", Op.check connA3 "tcp"] = some stateAAA ∧
      mkRat 5 2 < ((valueAt stateAAA.ipNumMap "10.0.0.1" : Int) : ℚ) ∧
      mkRat 5 2 < ((ipCount stateAAA "10.0.0.1" : Nat) : ℚ) := by
  decide

/-! ## The loops of `Shutdown` -/

theorem rangeDelete_mem {V : Type} (del : String → Event) (cls : V → Event)
    (order : List String) :
    ∀ (m : GoMap V) (k : String),
      k ∈ (rangeDelete del cls order m).1 ↔ k ∈ m ∧ k ∉ order := by
  induction order with
  | nil =>
    intro m k
    simp [rangeDelete]
  | cons a as ih =>
    intro m k
    cases hl : m.lookup a with
    | none =>
      have ha : a ∉ m := Finmap.lookup_eq_none.mp hl
      simp only [rangeDelete, hl, ih, List.mem_cons, not_or]
      constructor
      · rintro ⟨h1, h2⟩
        exact ⟨h1, fun hc => ha (hc ▸ h1), h2⟩
      · rintro ⟨h1, -, h2⟩
        exact ⟨h1, h2⟩
    | some v =>
      simp only [rangeDelete, hl, ih, Finmap.mem_erase, List.mem_cons, not_or]
      tauto

theorem flatMap_congr_mem {α β : Type} (f g : α → List β) (l : List α)
    (h : ∀ x ∈ l, f x = g x) : l.flatMap f = l.flatMap g := by
  induction l with
  | nil => rfl
  | cons a as ih =>
    simp only [List.flatMap_cons]
    rw [h a (List.mem_cons_self _ _), ih (fun x hx => h x (List.mem_cons_of_mem _ hx))]

theorem rangeDelete_trace {V : Type} (del : String → Event) (cls : V → Event)
    (order : List String) :
    ∀ (m : GoMap V), order.Nodup →
      (rangeDelete del cls order m).2 = order.flatMap (entryEvents del cls m) := by
  induction order with
  | nil =>
    intro m _
    simp [rangeDelete]
  | cons a as ih =>
    intro m hnd
    have hnd1 : as.Nodup := (List.nodup_cons.mp hnd).2
    have ha : a ∉ as := (List.nodup_cons.mp hnd).1
    cases hl : m.lookup a with
    | none =>
      simp only [rangeDelete, hl, List.flatMap_cons, entryEvents, List.nil_append]
      exact ih m hnd1
    | some v =>
      simp only [rangeDelete, hl, List.flatMap_cons, entryEvents, List.cons_append,
        List.nil_append]
      rw [ih (m.erase a) hnd1]
      congr 2
      apply flatMap_congr_mem
      intro x hx
      have hxa : x ≠ a := fun hc => ha (hc ▸ hx)
      simp only [entryEvents, Finmap.lookup_erase_ne hxa]

theorem rangeDelete_empty {V : Type} (del : String → Event) (cls : V → Event)
    (order : List String) (m : GoMap V) (h : IsOrderOf order m) :
    (rangeDelete del cls order m).1 = ∅ := by
  apply Finmap.ext_lookup
  intro k
  rw [Finmap.lookup_empty, Finmap.lookup_eq_none, rangeDelete_mem]
  rintro ⟨h1, h2⟩
  apply h2
  have : k ∈ order.toFinset := by
    rw [h.2]
    exact Finmap.mem_keys.mpr h1
  exact List.mem_toFinset.mp this

theorem isOrderOf_mem {V : Type} (order : List String) (m : GoMap V) (h : IsOrderOf order m)
    (k : String) : k ∈ order ↔ k ∈ m := by
  rw [← List.mem_toFinset, h.2, Finmap.mem_keys]

theorem isOrderOf_length {V : Type} (order : List String) (m : GoMap V)
    (h : IsOrderOf order m) : order.length = len m := by
  unfold len
  rw [← h.2, List.toFinset_card_of_nodup h.1]

theorem mem_entryEvents_flatMap {V : Type} (del : String → Event) (cls : V → Event)
    (m : GoMap V) (order : List String) (e : Event) :
    e ∈ order.flatMap (entryEvents del cls m) ↔
      ∃ k v, k ∈ order ∧ m.lookup k = some v ∧ (e = del k ∨ e = cls v) := by
  simp only [List.mem_flatMap]
  constructor
  · rintro ⟨k, hk, he⟩
    unfold entryEvents at he
    cases hl : m.lookup k with
    | none => simp [hl] at he
    | some v =>
      simp only [hl, List.mem_cons, List.mem_singleton, List.not_mem_nil, or_false] at he
      exact ⟨k, v, hk, hl, he⟩
  · rintro ⟨k, v, hk, hl, he⟩
    refine ⟨k, hk, ?_⟩
    unfold entryEvents
    simp only [hl, List.mem_cons, List.mem_singleton, List.not_mem_nil, or_false]
    exact he

theorem countP_entryEvents_flatMap {V : Type} (del : String → Event) (cls : V → Event)
    (hdel : ∀ k, (del k).isConnClose = false) (hcls : ∀ v, (cls v).isConnClose = true)
    (m : GoMap V) (order : List String) (h : ∀ k ∈ order, k ∈ m) :
    (order.flatMap (entryEvents del cls m)).countP Event.isConnClose = order.length := by
  induction order with
  | nil => rfl
  | cons a as ih =>
    obtain ⟨v, hv⟩ := Finmap.mem_iff.mp (h a (List.mem_cons_self _ _))
    simp only [List.flatMap_cons, List.countP_append, List.length_cons,
      ih (fun k hk => h k (List.mem_cons_of_mem _ hk))]
    simp [entryEvents, hv, List.countP_cons, hdel, hcls]
    omega

theorem closeListeners_eq (ls : Listeners) :
    closeListeners ls =
      ([Listener.tcpLn, Listener.tlsLn, Listener.wsLn, Listener.wssLn].filter
        ls.started).map Event.closeListener := by
  obtain ⟨a, b, c, d⟩ := ls
  cases a <;> cases b <;> cases c <;> cases d <;> rfl

theorem countP_closeListeners (ls : Listeners) :
    (closeListeners ls).countP Event.isConnClose = 0 := by
  obtain ⟨a, b, c, d⟩ := ls
  cases a <;> cases b <;> cases c <;> cases d <;> rfl

/-- C7: for every state and every order in which the two `range` loops visit the keys,
the actions of `Shutdown` are, in this order: a `Close` on each of `tcpLn`, `tlsLn`,
`wsLn`, `wssLn` that is non-nil and on no other listener; `consLock.Lock()`; for every
entry of `tcpCons` and then of `tlsCons` its deletion followed by one `Close` on its
connection; `consLock.Unlock()`; `wgCons.Wait()`.  Both registries are empty afterwards,
the connections closed are exactly the registered ones, and there is one `Close` per
registered connection. -/
theorem shutdown_three_phases (ls : Listeners) (s : State) (ordTcp ordTls : List String)
    (hT : IsOrderOf ordTcp s.tcpCons) (hL : IsOrderOf ordTls s.tlsCons) :
    (Shutdown ls s ordTcp ordTls).2 =
        ([Listener.tcpLn, Listener.tlsLn, Listener.wsLn, Listener.wssLn].filter
            ls.started).map Event.closeListener ++ [Event.lock] ++
          ordTcp.flatMap (entryEvents Event.deleteTcp Event.closeTcp s.tcpCons) ++
          ordTls.flatMap (entryEvents Event.deleteTls Event.closeTls s.tlsCons) ++
          [Event.unlock] ++ [Event.wgWait] ∧
      (Shutdown ls s ordTcp ordTls).1.tcpCons = ∅ ∧
      (Shutdown ls s ordTcp ordTls).1.tlsCons = ∅ ∧
      (∀ c, Event.closeTcp c ∈ (Shutdown ls s ordTcp ordTls).2 ↔
        ∃ k, s.tcpCons.lookup k = some c) ∧
      (∀ c, Event.closeTls c ∈ (Shutdown ls s ordTcp ordTls).2 ↔
        ∃ k, s.tlsCons.lookup k = some c) ∧
      (Shutdown ls s ordTcp ordTls).2.countP Event.isConnClose = s.total := by
  have htr : (Shutdown ls s ordTcp ordTls).2 =
      closeListeners ls ++ [Event.lock] ++
        ordTcp.flatMap (entryEvents Event.deleteTcp Event.closeTcp s.tcpCons) ++
        ordTls.flatMap (entryEvents Event.deleteTls Event.closeTls s.tlsCons) ++
        [Event.unlock] ++ [Event.wgWait] := by
    simp only [Shutdown, rangeDelete_trace _ _ _ _ hT.1, rangeDelete_trace _ _ _ _ hL.1]
  refine ⟨?_, rangeDelete_empty _ _ _ _ hT, rangeDelete_empty _ _ _ _ hL, ?_, ?_, ?_⟩
  · rw [htr, closeListeners_eq]
  · intro c
    rw [htr, closeListeners_eq]
    simp only [List.mem_append, mem_entryEvents_flatMap, List.mem_map, List.mem_singleton]
    constructor
    · intro h
      rcases h with ((((⟨l, -, h⟩ | h) | ⟨k, v, -, hl, h⟩) | ⟨k, v, -, hl, h⟩) | h) | h
      · cases h
      · cases h
      · rcases h with h | h
        · cases h
        · cases h
          exact ⟨k, hl⟩
      · rcases h with h | h <;> cases h
      · cases h
      · cases h
    · rintro ⟨k, hl⟩
      refine Or.inl (Or.inl (Or.inl (Or.inr ⟨k, c, ?_, hl, Or.inr rfl⟩)))
      exact (isOrderOf_mem ordTcp s.tcpCons hT k).mpr (Finmap.mem_of_lookup_eq_some hl)
  · intro c
    rw [htr, closeListeners_eq]
    simp only [List.mem_append, mem_entryEvents_flatMap, List.mem_map, List.mem_singleton]
    constructor
    · intro h
      rcases h with ((((⟨l, -, h⟩ | h) | ⟨k, v, -, hl, h⟩) | ⟨k, v, -, hl, h⟩) | h) | h
      · cases h
      · cases h
      · rcases h with h | h <;> cases h
      · rcases h with h | h
        · cases h
        · cases h
          exact ⟨k, hl⟩
      · cases h
      · cases h
    · rintro ⟨k, hl⟩
      refine Or.inl (Or.inl (Or.inr ⟨k, c, ?_, hl, Or.inr rfl⟩))
      exact (isOrderOf_mem ordTls s.tlsCons hL k).mpr (Finmap.mem_of_lookup_eq_some hl)
  · rw [htr]
    simp only [List.countP_append, countP_closeListeners]
    rw [countP_entryEvents_flatMap Event.deleteTcp Event.closeTcp (fun _ => rfl) (fun _ => rfl)
        s.tcpCons ordTcp (fun k hk => (isOrderOf_mem ordTcp s.tcpCons hT k).mp hk),
      countP_entryEvents_flatMap Event.deleteTls Event.closeTls (fun _ => rfl) (fun _ => rfl)
        s.tlsCons ordTls (fun k hk => (isOrderOf_mem ordTls s.tlsCons hL k).mp hk),
      isOrderOf_length ordTcp s.tcpCons hT, isOrderOf_length ordTls s.tlsCons hL]
    simp [State.total, List.countP_cons, Event.isConnClose]

/-- Witness of C7: `tcpLn` and `tlsLn` started, `connA` and `connB` registered. -/
theorem shutdown_three_phases_witness :
    IsOrderOf ["10.0.0.1:5001"] stateAB.tcpCons ∧ IsOrderOf ["10.0.0.2:5002"] stateAB.tlsCons ∧
      (Shutdown ⟨true, true, false, false⟩ stateAB ["10.0.0.1:5001"] ["10.0.0.2:5002"]).2 =
        [Event.closeListener Listener.tcpLn, Event.closeListener Listener.tlsLn, Event.lock,
          Event.deleteTcp "10.0.0.1:5001", Event.closeTcp ⟨"10.0.0.1:5001", 1⟩,
          Event.deleteTls "10.0.0.2:5002", Event.closeTls ⟨"10.0.0.2:5002", 2⟩,
          Event.unlock, Event.wgWait] ∧
      (Shutdown ⟨true, true, false, false⟩ stateAB ["10.0.0.1:5001"]
        ["10.0.0.2:5002"]).1.tcpCons = ∅ ∧
      (Shutdown ⟨true, true, false, false⟩ stateAB ["10.0.0.1:5001"]
        ["10.0.0.2:5002"]).1.tlsCons = ∅ :=
  ⟨by decide, by decide, by decide,
    (shutdown_three_phases ⟨true, true, false, false⟩ stateAB ["10.0.0.1:5001"]
      ["10.0.0.2:5002"] (by decide) (by decide)).2.1,
    (shutdown_three_phases ⟨true, true, false, false⟩ stateAB ["10.0.0.1:5001"]
      ["10.0.0.2:5002"] (by decide) (by decide)).2.2.1⟩

/-- C8, amended: the force-close step of `Shutdown` empties both registries and leaves
`ipNumMap` as it was; so for a state that satisfies the Per-IP Counter invariant, the
state it leaves satisfies the invariant exactly when no connection with an IP was
registered before. -/
theorem shutdown_keeps_counters (ls : Listeners) (s : State) (ordTcp ordTls : List String)
    (hT : IsOrderOf ordTcp s.tcpCons) (hL : IsOrderOf ordTls s.tlsCons)
    (hs : CounterInv s) :
    (Shutdown ls s ordTcp ordTls).1.tcpCons = ∅ ∧
      (Shutdown ls s ordTcp ordTls).1.tlsCons = ∅ ∧
      (Shutdown ls s ordTcp ordTls).1.ipNumMap = s.ipNumMap ∧
      (CounterInv (Shutdown ls s ordTcp ordTls).1 ↔ ∀ ip, ipCount s ip = 0) := by
  have h1 : (Shutdown ls s ordTcp ordTls).1.tcpCons = ∅ := rangeDelete_empty _ _ _ _ hT
  have h2 : (Shutdown ls s ordTcp ordTls).1.tlsCons = ∅ := rangeDelete_empty _ _ _ _ hL
  have h3 : (Shutdown ls s ordTcp ordTls).1.ipNumMap = s.ipNumMap := rfl
  refine ⟨h1, h2, h3, ?_⟩
  have hcnt : ∀ ip, ipCount (Shutdown ls s ordTcp ordTls).1 ip = 0 := by
    intro ip
    simp [ipCount, ipCountIn, h1, h2]
  constructor
  · intro h ip
    have := h ip
    rw [hcnt ip, h3, hs ip] at this
    exact_mod_cast this
  · intro h ip
    rw [hcnt ip, h3, hs ip, h ip]

/-- Witness of C8 (amended): `connA` and `connB` registered. -/
theorem shutdown_keeps_counters_witness :
    IsOrderOf ["10.0.0.1:5001"] stateAB.tcpCons ∧ IsOrderOf ["10.0.0.2:5002"] stateAB.tlsCons ∧
      CounterInv stateAB ∧
      (Shutdown ⟨true, true, false, false⟩ stateAB ["10.0.0.1:5001"]
        ["10.0.0.2:5002"]).1.ipNumMap = stateAB.ipNumMap :=
  ⟨by decide, by decide,
    (inv_run cfgTwo [Op.check connA "tcp", Op.check connB "tls"] State.empty stateAB inv_empty
      (by decide) (by decide)).2.1,
    (shutdown_keeps_counters ⟨true, true, false, false⟩ stateAB ["10.0.0.1:5001"]
      ["10.0.0.2:5002"] (by decide) (by decide)
      ((inv_run cfgTwo [Op.check connA "tcp", Op.check connB "tls"] State.empty stateAB
        inv_empty (by decide) (by decide)).2.1)).2.2.1⟩

/-- Counterexample to C8 as stated: with `connA` registered and `ipNumMap["10.0.0.1"] = 1`
the Per-IP Counter invariant holds; after the force-close step both registries are
empty while `ipNumMap["10.0.0.1"]` is still 1, so the invariant does not hold. -/
theorem shutdown_keeps_counters_counterexample :
    IsOrderOf ["10.0.0.1:5001"] stateA.tcpCons ∧ IsOrderOf [] stateA.tlsCons ∧
      CounterInv stateA ∧
      ¬ CounterInv (Shutdown ⟨true, false, false, false⟩ stateA ["10.0.0.1:5001"] []).1 :=
  ⟨by decide, by decide,
    (inv_run cfgTwo [Op.check connA "tcp"] State.empty stateA inv_empty
      (by decide) (by decide)).2.1,
    fun h => absurd (h "10.0.0.1") (by decide)⟩

end Tim
